import Mathlib

/-!
Verification development for the link-graph subsystem of
`biotech-youtube.py` (YouTube comment link-graph visualizer).

Python strings are modelled as `List Char`; Python dicts as
insertion-ordered association lists (dicts preserve insertion order in
Python 3.7+); Python `None`/`''` falsiness is modelled explicitly at each
use site.  Fallible operations (dict subscription that can raise
`KeyError`, list indexing that can raise `IndexError`) return `Option`.
-/

namespace YTGraph

/-- Python strings, modelled as lists of characters. -/
abbrev Str := List Char

/-- Turns a Lean string literal into the model type. -/
def lit (s : String) : Str := s.data

/-- Model of Python `str.lower` for the ASCII text this script handles. -/
def pyLower (s : Str) : Str := s.map Char.toLower

/-- Boolean test that `p` is an initial segment of `s`. -/
def leadsWith : Str → Str → Bool
  | [], _ => true
  | _ :: _, [] => false
  | p :: ps, c :: cs => p = c && leadsWith ps cs

/-- Boolean test that `p` occurs as a contiguous substring of `s`
(Python `p in s`). -/
def isSubstr (p : Str) : Str → Bool
  | [] => p.isEmpty
  | c :: cs => leadsWith p (c :: cs) || isSubstr p cs

/-- Fuel-indexed worker for `replaceAll`; every step consumes at least
one character, so fuel equal to the input length always suffices. -/
def replaceAllF (p : Char) (ps rep : Str) : Nat → Str → Str
  | _, [] => []
  | 0, s => s
  | fuel + 1, c :: cs =>
    if leadsWith (p :: ps) (c :: cs)
    then rep ++ replaceAllF p ps rep fuel (cs.drop ps.length)
    else c :: replaceAllF p ps rep fuel cs

/-- Replace every occurrence of the nonempty pattern `p :: ps` by `rep`,
scanning left to right without rescanning the replacement — the shared
semantics of Python `str.replace` and `re.sub` with a literal pattern. -/
def replaceAll (p : Char) (ps rep s : Str) : Str :=
  replaceAllF p ps rep s.length s

/-- Python `s.replace(pat, rep)` (empty patterns are never used here). -/
def pyReplace (pat rep s : Str) : Str :=
  match pat with
  | [] => s
  | p :: ps => replaceAll p ps rep s

/-- Python `s.split(sep)` for a single-character separator. -/
def splitChar (sep : Char) : Str → List Str
  | [] => [[]]
  | c :: cs =>
    let r := splitChar sep cs
    if c = sep then [] :: r
    else
      match r with
      | h :: t => (c :: h) :: t
      | [] => [[c]]

/-- `'\n'.join(...)`-style joining with a single-character separator. -/
def joinChar (sep : Char) (parts : List Str) : Str :=
  List.intercalate [sep] parts

/-- Decimal rendering of a node number, as Python `str(n)`. -/
def natStr (n : Nat) : Str := (Nat.repr n).data

/-!  ### Identity/canonicalization: `_shorten_link`  -/

/-- Characters Python's `urllib.parse` accepts inside a URL scheme. -/
def isSchemeChar (c : Char) : Bool :=
  c.isAlpha || c.isDigit || c = '+' || c = '-' || c = '.'

/-- Model of `urlparse(l).netloc` (Python `urllib.parse`): strip a valid
`scheme:` prefix, then, if the remainder starts with `//`, the netloc is
what follows up to the first `/`, `?` or `#`; otherwise it is empty. -/
def pyNetloc (url : Str) : Str :=
  let pre := url.takeWhile (· ≠ ':')
  let rest :=
    if pre.length < url.length ∧ pre ≠ [] ∧
        (pre.headD ' ').isAlpha ∧ pre.all isSchemeChar
    then url.drop (pre.length + 1) else url
  match rest with
  | '/' :: '/' :: r => r.takeWhile (fun c => c ≠ '/' ∧ c ≠ '?' ∧ c ≠ '#')
  | _ => []

/-- Model of `re.search('^(.*?)/', l)`: the prefix of `l` before its first
`/`, or no match when `l` has no `/`. -/
def upToSlash (l : Str) : Option Str :=
  if isSubstr (lit "/") l then some (l.takeWhile (· ≠ '/')) else none

/-- Model of `re.search('[^.]+\\.[^.]+$', domain)`: when `domain` ends in
`X.Y` with `X`, `Y` nonempty and dot-free, narrow it to that suffix (the
last two dot-separated labels); otherwise leave it unchanged. -/
def lastTwoLabels (d : Str) : Str :=
  let r := d.reverse
  let lastL := r.takeWhile (· ≠ '.')
  match r.drop lastL.length with
  | c :: r2 =>
    let secondL := r2.takeWhile (· ≠ '.')
    if c = '.' ∧ lastL ≠ [] ∧ secondL ≠ []
    then secondL.reverse ++ '.' :: lastL.reverse
    else d
  | [] => d

/-- Model of `re.sub('^https*://', '', l)`: strip a leading `http`,
any run of `s`, then `://`; otherwise leave `l` unchanged. -/
def stripHttpScheme (l : Str) : Str :=
  match l with
  | 'h' :: 't' :: 't' :: 'p' :: rest =>
    let ss := rest.takeWhile (· = 's')
    match rest.drop ss.length with
    | ':' :: '/' :: '/' :: r3 => r3
    | _ => l
  | _ => l

/-- Embedding of `_shorten_link`: lower-case and delete every `www.`,
extract the domain (the URL netloc narrowed to its last two labels, or
the prefix before the first `/` as a fallback), then strip a leading
`http(s)://`.  Returns `(normalized_link, domain)`. -/
def shorten_link (l0 : Str) : Str × Str :=
  let l := pyReplace (lit "www.") [] (pyLower l0)
  let netloc := pyNetloc l
  let domain :=
    if netloc = [] then
      match upToSlash l with
      | some d => d
      | none => netloc
    else lastTwoLabels netloc
  (stripHttpScheme l, domain)

/-!  ### Configurable defaults  -/

def MAX_NODE_LINE_LENGTH : Nat := 25
def MAX_NODES_IN_COLUMN : Nat := 15
def BASE_EDGE_WIDTH : Nat := 2

/-!  ### Label wrapping and small helpers  -/

/-- Fuel-indexed worker for `chunkList`; every step consumes at least one
character, so fuel equal to the input length always suffices. -/
def chunkListF (w : Nat) : Nat → Str → List Str
  | _, [] => []
  | 0, s => [s]
  | fuel + 1, c :: cs => List.take w (c :: cs) :: chunkListF w fuel (List.drop (w - 1) cs)

/-- Fixed-width chunking of a character list. -/
def chunkList (w : Nat) (s : Str) : List Str := chunkListF w s.length s

/-- Modelled from Python `textwrap.wrap(text, width)` for the inputs this
script feeds it: for whitespace-free text (canonicalized links and
domains) `wrap` reduces to breaking the single long word into
`width`-sized chunks, and `wrap('') = []`. -/
def pyWrap (w : Nat) (s : Str) : List Str := chunkList w s

/-- Embedding of `_format_link_for_display`: wrap the link text and join
the pieces with newlines (the `short_domain` argument is ignored by the
source as well). -/
def format_link_for_display (link : Str) : Str :=
  joinChar '\n' (pyWrap MAX_NODE_LINE_LENGTH link)

/-- Embedding of `_escape_special_chars`: `re.sub('[^A-Za-z ]+', '', text)`
deletes every character that is not an ASCII letter or a space. -/
def escape_special_chars (text : Str) : Str :=
  text.filter (fun c => decide (('A' ≤ c ∧ c ≤ 'Z') ∨ ('a' ≤ c ∧ c ≤ 'z') ∨ c = ' '))

/-- Association-list lookup, modelling Python dict subscription (`None`
for a missing key; call sites that would raise `KeyError` test this). -/
def alookup {κ ν : Type} [DecidableEq κ] (m : List (κ × ν)) (k : κ) : Option ν :=
  (m.find? (fun e => decide (e.1 = k))).map (·.2)

/-- Python dict assignment `m[k] = v`: replaces in place (dicts keep the
original insertion position of an updated key) or appends. -/
def dictInsert {κ ν : Type} [DecidableEq κ] (m : List (κ × ν)) (k : κ) (v : ν) :
    List (κ × ν) :=
  match m with
  | [] => [(k, v)]
  | e :: t => if e.1 = k then (k, v) :: t else e :: dictInsert t k v

/-- The `try: m[k].append(x) except KeyError: m[k] = [x]` idiom used for
cluster buckets. -/
def bucketAdd (m : List (Str × List Nat)) (k : Str) (x : Nat) :
    List (Str × List Nat) :=
  match m with
  | [] => [(k, [x])]
  | e :: t => if e.1 = k then (e.1, e.2 ++ [x]) :: t else e :: bucketAdd t k x

/-!  ### Cluster classifier  -/

/-- Static configuration handed to `GraphCreator`: the
`WEBSITES_TO_CLUSTERS` mapping (keys may join aliases with `|`), the
`SPECIAL_USER_STYLING` table (username hash to `(alias, color)`), and the
starting cluster name. -/
structure GraphConfig where
  clusterMap : List (Str × Str)
  styling : List (Str × (Str × Str))
  startingCluster : Str

/-- Embedding of `_prepare_cluster_map`: each `|`-separated variation of
every key is mapped to that whole key (`domain_to_cluster_map[name_var] =
label` in the source, with `label` the full dictionary key). -/
def prepare_cluster_map (cm : List (Str × Str)) : List (Str × Str) :=
  cm.foldl (fun acc e => (splitChar '|' e.1).foldl (fun a v => dictInsert a v e.1) acc) []

/-- The alternatives of `website_name_re`, i.e.
`'({})'.format('|'.join(cluster_map.keys()))`: since the keys themselves
contain `|`, the regex alternation lists exactly the individual aliases,
in key-then-variation order — the key order of `prepare_cluster_map`. -/
def clusterAliases (cfg : GraphConfig) : List Str :=
  (prepare_cluster_map cfg.clusterMap).map (·.1)

/-- Model of `website_name_re.search(text)`: regex alternation of literal
aliases returns the leftmost match, taking the first-listed alternative
at the earliest position where any alias matches. -/
def findFirstAlias (aliases : List Str) : Str → Option Str
  | [] => aliases.find? (fun a => leadsWith a [])
  | c :: cs =>
    match aliases.find? (fun a => leadsWith a (c :: cs)) with
    | some a => some a
    | none => findFirstAlias aliases cs

/-!  ### Percent-encoding (`urllib.parse.quote`)  -/

/-- UTF-8 byte sequence of a character. -/
def utf8Bytes (c : Char) : List Nat :=
  let n := c.toNat
  if n < 128 then [n]
  else if n < 2048 then [192 + n / 64, 128 + n % 64]
  else if n < 65536 then [224 + n / 4096, 128 + (n / 64) % 64, 128 + n % 64]
  else [240 + n / 262144, 128 + (n / 4096) % 64, 128 + (n / 64) % 64, 128 + n % 64]

/-- Upper-case hexadecimal digit. -/
def hexDigit (n : Nat) : Char :=
  if n < 10 then Char.ofNat (48 + n) else Char.ofNat (55 + n)

/-- Characters `urllib.parse.quote` leaves unencoded with its default
`safe='/'`. -/
def quoteSafe (c : Char) : Bool :=
  c.isAlphanum || c = '_' || c = '.' || c = '-' || c = '~' || c = '/'

/-- Model of `urllib.parse.quote(s)`: percent-encode every unsafe byte of
the UTF-8 encoding, upper-case hex. -/
def pyQuote (s : Str) : Str :=
  s.foldr
    (fun c acc =>
      (if quoteSafe c then [c]
       else (utf8Bytes c).foldr
         (fun b a2 => '%' :: hexDigit (b / 16) :: hexDigit (b % 16) :: a2) []) ++ acc)
    []

/-!  ### Graph model builder  -/

/-- The structured content of one emitted Graphviz node declaration
`num [label=..., tooltip=... (, href=...)(, style=filled,...)]`. -/
structure NodeInfo where
  label : Str
  tooltip : Str
  href : Option Str
  style : Option Str
deriving DecidableEq

/-- The class-level mutable registry of `GraphCreator`: `_node_codes`
and `_current_node_num` (initially `{}` and `1`). -/
structure NodeState where
  codes : List (Str × Nat)
  num : Nat
deriving DecidableEq

/-- Embedding of `_format_node`.  The display text (newlines escaped to
`\\n`) is the identity key: a known key returns its stored number, a new
key receives the current counter value.  The counter is incremented on
every call (also for known keys), and the key is (re)bound to its number.
Styling consults the alias regex and the cluster tables; an `href` is
recorded when the label contains `/`. -/
def format_node (cfg : GraphConfig) (st : NodeState) (nodetext0 : Str) :
    Nat × NodeInfo × NodeState :=
  let nodetext := pyReplace (lit "\n") (lit "\\n") nodetext0
  let node_num :=
    match alookup st.codes nodetext with
    | some n => n
    | none => st.num
  let oneline := pyReplace (lit "\\n") [] nodetext
  let lowtext := pyLower oneline
  let style :=
    match findFirstAlias (clusterAliases cfg) lowtext with
    | some a =>
      let fullname := (alookup (prepare_cluster_map cfg.clusterMap) a).getD []
      some (lit ",style=filled," ++ (alookup cfg.clusterMap fullname).getD [])
    | none => none
  let href :=
    if isSubstr (lit "/") lowtext then
      let url := pyQuote lowtext
      some (if leadsWith (lit "http") url then url else lit "https://" ++ url)
    else none
  (node_num, ⟨nodetext, oneline, href, style⟩,
    ⟨dictInsert st.codes nodetext node_num, st.num + 1⟩)

/-- One element of `GraphCreator.connections`:
`(source_info, target_info, author, origin_tag)` where each info is a
`(link, short_domain)` pair and `author` is the attribution hash (empty
for `None`). -/
structure Conn4 where
  src : Str × Option Str
  dst : Str × Option Str
  author : Str
  origin : Str

/-- The accumulating state of the `_make_graph_body` loop
(`clusterized` is the `clusterized_nodes` set, modelled as a duplicate-free
list since only membership is observed). -/
structure BodyState where
  ns : NodeState
  node_map : List (Nat × NodeInfo)
  url_map : List (Nat × Str)
  conns : List (Nat × Nat × Str)
  clusters : List (Str × List Nat)
  clusterized : List Nat

/-- The return value of `_make_graph_body`. -/
structure BodyOut where
  node_map : List (Nat × NodeInfo)
  url_map : List (Nat × Str)
  conns : List (Nat × Nat × Str)
  clusters : List (Str × List Nat)
deriving DecidableEq

/-- The per-endpoint cluster-registration loop of `_make_graph_body`:
for every alias contained in the lowercased, newline-stripped label,
append the node to the bucket named by the escaped alias (and mark it
clusterized); afterwards, a node never clusterized goes to the
`nongrouped` bucket. -/
def map_to_clusters (cfg : GraphConfig) (cl0 : List (Str × List Nat))
    (cz0 : List Nat) (s : Str) (slabel : Nat) :
    List (Str × List Nat) × List Nat :=
  let t := pyReplace (lit "\n") [] (pyLower s)
  let r := (clusterAliases cfg).foldl
    (fun (acc : List (Str × List Nat) × List Nat) cname =>
      if isSubstr cname t then
        (bucketAdd acc.1 (escape_special_chars cname) slabel,
         if slabel ∈ acc.2 then acc.2 else acc.2 ++ [slabel])
      else acc)
    (cl0, cz0)
  if slabel ∈ r.2 then r else (bucketAdd r.1 (lit "nongrouped") slabel, r.2)

/-- One iteration of the `_make_graph_body` loop.  `None` models the
uncaught `KeyError` raised by `SPECIAL_USER_STYLING[author]` when a
nonempty attribution hash is missing from the styling table.  (The
`if new_node:` guard in the source is always taken: `_format_node`
returns a nonempty declaration string.) -/
def body_step (cfg : GraphConfig) (st : BodyState) (e : Conn4) :
    Option BodyState :=
  let site1 := format_link_for_display e.src.1
  let site2 := format_link_for_display e.dst.1
  let r1 := format_node cfg st.ns site1
  let nm1 := dictInsert st.node_map r1.1 r1.2.1
  let r2 := format_node cfg r1.2.2 site2
  let nm2 := dictInsert nm1 r2.1 r2.2.1
  let um := dictInsert (dictInsert st.url_map r1.1 e.src.1) r2.1 e.dst.1
  match (if e.author ≠ [] then (alookup cfg.styling e.author).map (·.2) else some []) with
  | none => none
  | some edgecolor =>
    let p1 := map_to_clusters cfg st.clusters st.clusterized site1 r1.1
    let p2 := map_to_clusters cfg p1.1 p1.2 site2 r2.1
    some ⟨r2.2.2, nm2, um, st.conns ++ [(r1.1, r2.1, edgecolor)], p2.1, p2.2⟩

/-- Embedding of `_make_graph_body`: fold the loop body over
`self.connections` starting from the empty registries. -/
def make_graph_body (cfg : GraphConfig) (connections : List Conn4) :
    Option BodyOut :=
  match connections.foldlM (body_step cfg) ⟨⟨[], 1⟩, [], [], [], [], []⟩ with
  | some st => some ⟨st.node_map, st.url_map, st.conns, st.clusters⟩
  | none => none

/-- The inbound-connection count computed in `make_graph`:
`Counter(c for _, c, _ in connections)` with a zero default for every
registered node. -/
def conn_num_of (conns : List (Nat × Nat × Str)) (n : Nat) : Nat :=
  (conns.filter (fun c => decide (c.2.1 = n))).length

/-!  ### Layout engine  -/

/-- First-seen deduplication (the element set of `xs` in first-occurrence
order). -/
def dedupKeepFirst (xs : List Nat) : List Nat :=
  xs.foldl (fun acc v => if v ∈ acc then acc else acc ++ [v]) []

/-- Modelled from the CPython runtime semantics of `list(set(nodes))` for
the small nonnegative node numbers this script produces: a CPython set of
at most five small ints is an 8-slot open hash table with `hash(n) = n`,
element `n` sitting in slot `n % 8`, and iteration walks the slots in
order.  For collision-free inputs (all inputs in this development) that
is exactly the distinct elements ordered by `n % 8` — which is *not*
insertion order (e.g. `list({2, 8}) == [8, 2]`). -/
def pyListSet (xs : List Nat) : List Nat :=
  (dedupKeepFirst xs).insertionSort (fun a b => a % 8 ≤ b % 8)

/-- Embedding of `_sort_by_influence`: Python's `sorted(..., reverse=True)`
is a stable sort by key descending (ties keep their input order),
modelled as stable insertion sort. -/
def sort_by_influence (cn : Nat → Nat) (nodes : List (Nat × Str)) :
    List (Nat × Str) :=
  nodes.insertionSort (fun a b => cn b.1 ≤ cn a.1)

/-- The per-bucket emission of `reorder_nodes_by_clusters`: deduplicate
via `list(set(...))`, pair with the cluster name, sort by influence. -/
def bucketEmit (cn : Nat → Nat) (cname : Str) (nodes : List Nat) :
    List (Nat × Str) :=
  sort_by_influence cn ((pyListSet nodes).map (fun n => (n, cname)))

/-- Embedding of `reorder_nodes_by_clusters`: every bucket is emitted in
dict order, the `nongrouped` bucket becoming `normal_nodes` (placed
first) and all others concatenating into `nodes_from_clusters`.  (The
source also writes the deduplicated list back into `clusters`, which no
later code observes on the `make_graph` path.) -/
def reorder_nodes_by_clusters (node_map : List (Nat × NodeInfo))
    (clusters : List (Str × List Nat)) (cn : Nat → Nat) : List (Nat × Str) :=
  let r := clusters.foldl
    (fun (acc : List (Nat × Str) × List (Nat × Str)) b =>
      let emitted := bucketEmit cn b.1 b.2
      if b.1 = lit "nongrouped" then (emitted, acc.2) else (acc.1, acc.2 ++ emitted))
    ([], [])
  r.1 ++ r.2

/-- The running state of the column-grouping loop in
`place_nodes_in_grid` (`node_groups, buffer, i`).  Cells are
`Option Nat`: `some n` is a node number, `none` the `''` padding. -/
structure ChunkSt where
  groups : List (List (Option Nat))
  buffer : List (Option Nat)
  i : Nat

/-- One iteration of the grouping loop: append to the buffer; flush it as
a finished column once `i` reaches `MAX_NODES_IN_COLUMN - 1`. -/
def chunkStep (s : ChunkSt) (n : Nat) : ChunkSt :=
  let buffer := s.buffer ++ [some n]
  if s.i = MAX_NODES_IN_COLUMN - 1 then ⟨s.groups ++ [buffer], [], 0⟩
  else ⟨s.groups, buffer, s.i + 1⟩

/-- The grouping loop of `place_nodes_in_grid`, including the trailing
`if buffer: node_groups.append(buffer[:])`. -/
def nodeGroups (nodes : List Nat) : List (List (Option Nat)) :=
  let s := nodes.foldl chunkStep ⟨[], [], 0⟩
  if s.buffer ≠ [] then s.groups ++ [s.buffer] else s.groups

/-- The padding step of `place_nodes_in_grid`:
`first_group, last_group = node_groups[0], node_groups[-1]` raises an
uncaught `IndexError` (modelled as `none`) when there are no groups;
otherwise the last group is padded in place with `''` placeholders up to
the first group's length (`len_diff` is Python int arithmetic, so the pad
only happens when it is positive). -/
def padGroups (gs : List (List (Option Nat))) :
    Option (List (Option Nat) × List (List (Option Nat))) :=
  match gs with
  | [] => none
  | g0 :: _ =>
    let lastg := gs.getLastD []
    let diff : Int := (g0.length : Int) - (lastg.length : Int)
    if 0 < diff
    then some (g0, gs.dropLast ++ [lastg ++ List.replicate diff.toNat none])
    else some (g0, gs)

/-- Embedding of `_join_columns`: emit the nexus dummy, invisible edges
from every left-column node into it, an optional chain of further
dummies, then edges into every right-column node. -/
def join_columns (left right : List Str) (dummyname : Str) (dummy_num : Nat) :
    Str :=
  let rows1 := (dummyname ++ lit "[style=invis]") :: lit "edge[style=invis]" ::
    left.map (fun node => node ++ lit " -> " ++ dummyname)
  let rd :=
    if dummy_num > 1 then
      (List.range dummy_num).foldl
        (fun (acc : List Str × Str) i =>
          let nd := dummyname ++ natStr i
          (acc.1 ++ [nd ++ lit "[style=invis]", acc.2 ++ lit " -> " ++ nd], nd))
        ([], dummyname)
    else ([], dummyname)
  let rows2 := right.map (fun node => rd.2 ++ lit " -> " ++ node)
  joinChar '\n' (rows1 ++ rd.1 ++ rows2 ++ [lit "edge[style=solid]"])

/-- The column-routing loop at the top of `place_nodes_in_grid`: starting
cluster nodes with an outbound edge go to the starting column, those
without to the leftside column, everything else into `nodes`.  Returns
`(nodes, starting_column, leftside_column)`. -/
def splitColumns (start : Str) (ncs : List (Nat × Str)) (outbound : List Nat) :
    List Nat × List Nat × List Nat :=
  ncs.foldl
    (fun (acc : List Nat × List Nat × List Nat) p =>
      if p.2 = start then
        if p.1 ∈ outbound then (acc.1, acc.2.1 ++ [p.1], acc.2.2)
        else (acc.1, acc.2.1, acc.2.2 ++ [p.1])
      else (acc.1 ++ [p.1], acc.2.1, acc.2.2))
    ([], [], [])

/-- `list(zip(*node_groups))`: the transposed rows, truncated to the
shortest group. -/
def zipRows (gs : List (List (Option Nat))) : List (List (Option Nat)) :=
  match gs with
  | [] => []
  | _ => (List.range ((gs.map List.length).foldr min (gs.headD []).length)).map
      (fun i => gs.map (fun g => g.getD i none))

/-- Rendering one transposed row: drop the `''` paddings, stringify node
numbers, join with invisible arrows. -/
def rowLine (row : List (Option Nat)) : Str :=
  List.intercalate (lit " -> ") (row.filterMap (fun c => c.map natStr))

/-- Python `str(cell)` for a grid cell. -/
def cellStr (c : Option Nat) : Str :=
  match c with
  | some n => natStr n
  | none => []

/-- Embedding of `place_nodes_in_grid` (returns `(grid, False)` like the
source; `none` models the uncaught `IndexError` of the padding step). -/
def place_nodes_in_grid (start : Str) (ncs : List (Nat × Str))
    (connections : List (Nat × Nat × Str)) : Option (Str × Bool) :=
  let outbound := connections.map (·.1)
  let cols := splitColumns start ncs outbound
  match padGroups (nodeGroups cols.1) with
  | none => none
  | some fg =>
    let graphviz_lines := (zipRows fg.2).map rowLine
    let grid := joinChar '\n'
      [[], lit "edge[style=invis]", [], joinChar '\n' graphviz_lines, [],
       lit "edge[style=solid]", []]
    let left_c :=
      if cols.2.2 ≠ [] then
        join_columns (cols.2.2.map natStr) (cols.2.1.map natStr) (lit "first_dummy") 1
      else []
    let main_c :=
      if cols.2.1 ≠ [] then
        join_columns (cols.2.1.map natStr) (fg.1.map cellStr) (lit "dummy") 4
      else []
    some (List.intercalate (lit "\n\n") [left_c, main_c, grid], false)

/-!  ### Edge formatting  -/

/-- The structured content of one emitted edge line of `_format_edges`:
`src -> dst` plus an optional explicit `color` attribute and an optional
explicit `penwidth` attribute.  Python computes the width as
`BASE_EDGE_WIDTH + edge_num*0.5`, exact float arithmetic on multiples of
one half; `penwidth2` stores twice that width so the model stays in
`Nat` (`penwidth2 = 2*BASE_EDGE_WIDTH + edge_num`). -/
structure EdgeDecl (α : Type) where
  src : α
  dst : α
  color : Option Str
  penwidth2 : Option Nat
deriving DecidableEq

/-- `try: conn_data[data] += 1 except KeyError: conn_data[data] = 1`
over a dict keyed by the whole `(name1, name2, edgecolor)` tuple. -/
def bumpConn {α : Type} [DecidableEq α] (d : List ((α × α × Str) × Nat))
    (t : α × α × Str) : List ((α × α × Str) × Nat) :=
  match d with
  | [] => [(t, 1)]
  | e :: r => if e.1 = t then (e.1, e.2 + 1) :: r else e :: bumpConn r t

/-- The multiplicity dict `conn_data` of `_format_edges` under edge
minimization. -/
def collapseConns {α : Type} [DecidableEq α] (conns : List (α × α × Str)) :
    List ((α × α × Str) × Nat) :=
  conns.foldl bumpConn []

/-- Embedding of `_format_edges`.  Without minimization every connection
becomes one edge with an explicit `color="{c}"` attribute (also when `c`
is empty).  With minimization, equal tuples are collapsed; a color
attribute is emitted only for a nonempty color and a `penwidth` only for
multiplicity above one. -/
def format_edges {α : Type} [DecidableEq α] (minimize : Bool)
    (connections : List (α × α × Str)) : List (EdgeDecl α) :=
  if minimize = false then
    connections.map (fun c => ⟨c.1, c.2.1, some c.2.2, none⟩)
  else
    (collapseConns connections).map (fun e =>
      ⟨e.1.1, e.1.2.1,
       if e.1.2.2 ≠ [] then some e.1.2.2 else none,
       if e.2 > 1 then some (2 * BASE_EDGE_WIDTH + e.2) else none⟩)

/-- The `DEFAULT_GRAPH_PARAMS` table of `GraphCreator` (category to
attribute list); the edge category carries the default edge color. -/
def DEFAULT_GRAPH_PARAMS : List (Str × List (Str × Str)) :=
  [(lit "edge", [(lit "color", lit "#8caff3"), (lit "penwidth", natStr BASE_EDGE_WIDTH)]),
   (lit "node", [(lit "color", lit "#4bc9c8"), (lit "fontcolor", lit "#dddddd")]),
   (lit "graph",
    [(lit "fontname", lit "Helvetica"), (lit "bgcolor", lit "#252525"),
     (lit "ranksep", lit "2"), (lit "nodesep", lit "1.2"), (lit "rankdir", lit "LR"),
     (lit "splines", lit "line"), (lit "newrank", lit "true"),
     (lit "overlap", lit "prism")])]

/-!  ### Helpers for stating the claims  -/

/-- The identity key `_format_node` derives from a display label. -/
def preLabel (s : Str) : Str := pyReplace (lit "\n") (lit "\\n") s

/-- Registering a sequence of display labels, starting from the fresh
`GraphCreator` registry. -/
def runFormat (cfg : GraphConfig) (ls : List Str) : NodeState :=
  ls.foldl (fun st x => (format_node cfg st x).2.2) ⟨[], 1⟩

/-- Index of the first occurrence of `k`. -/
def firstIdx (k : Str) (ks : List Str) : Nat :=
  ks.findIdx (fun a => decide (a = k))

/-- The edge list of the spec's minimization scenario: two identical
unattributed `a.com -> b.com` edges and one `a.com -> c.com` edge whose
attribution resolved to a suspect color. -/
def scenarioEdges : List (Str × Str × Str) :=
  [(lit "a.com", lit "b.com", []), (lit "a.com", lit "b.com", []),
   (lit "a.com", lit "c.com", lit "#ff3838")]

/-- Boolean test: this collapse-dict entry joins nodes `a` and `b`. -/
def pairTest {α : Type} [DecidableEq α] (a b : α) (e : (α × α × Str) × Nat) : Bool :=
  decide (e.1.1 = a ∧ e.1.2.1 = b)

/-- Boolean test: this raw connection joins nodes `a` and `b`. -/
def connTest {α : Type} [DecidableEq α] (a b : α) (t : α × α × Str) : Bool :=
  decide (t.1 = a ∧ t.2.1 = b)

/-- Boolean test: this rendered edge joins nodes `a` and `b`. -/
def edgeTest {α : Type} [DecidableEq α] (a b : α) (e : EdgeDecl α) : Bool :=
  decide (e.src = a ∧ e.dst = b)

/-- A node is covered by a cluster table when some bucket contains it. -/
def covered (cl : List (Str × List Nat)) (n : Nat) : Prop :=
  ∃ b ∈ cl, n ∈ b.2

/-- A minimal configuration used to witness the amended
cluster-completeness statement: no cluster aliases, no styling. -/
def witnessCfg : GraphConfig := ⟨[], [], lit "youtube"⟩

/-- A single unattributed connection `"a" -> "b"`. -/
def witnessConns : List Conn4 := [⟨(lit "a", none), (lit "b", none), [], []⟩]

/-- The graph-body output produced by `witnessCfg` on `witnessConns`:
two nodes, one edge, both nodes in the `nongrouped` bucket. -/
def witnessOut : BodyOut :=
  ⟨[(1, ⟨lit "a", lit "a", none, none⟩), (2, ⟨lit "b", lit "b", none, none⟩)],
   [(1, lit "a"), (2, lit "b")], [(1, 2, [])], [(lit "nongrouped", [1, 2])]⟩

/-- Invariant of the column-grouping loop: the counter mirrors the buffer
length, the buffer is never full, and every flushed group is full. -/
def chunkOk (s : ChunkSt) : Prop :=
  s.i = s.buffer.length ∧ s.buffer.length < MAX_NODES_IN_COLUMN ∧
  ∀ g ∈ s.groups, g.length = MAX_NODES_IN_COLUMN

/-- Total number of cells held by the grouping state. -/
def chunkCount (s : ChunkSt) : Nat :=
  (s.groups.map List.length).sum + s.buffer.length

/-- Invariant of the `_make_graph_body` fold: every registered node and
every clusterized node lies in some cluster bucket. -/
def bodyCovered (st : BodyState) : Prop :=
  (∀ p ∈ st.node_map, covered st.clusters p.1) ∧
  (∀ m ∈ st.clusterized, covered st.clusters m)

/-!  ## Theorems  -/

theorem replaceAllF_not_substr (p : Char) (ps rep : Str) :
    ∀ (fuel : Nat) (s : Str), isSubstr (p :: ps) s = false →
      replaceAllF p ps rep fuel s = s := by
  intro fuel
  induction fuel with
  | zero => intro s h; cases s <;> simp [replaceAllF]
  | succ f ih =>
    intro s h
    cases s with
    | nil => simp [replaceAllF]
    | cons c cs =>
      simp only [isSubstr, Bool.or_eq_false_iff] at h
      simp [replaceAllF, h.1, ih cs h.2]

theorem replaceAll_not_substr (p : Char) (ps rep : Str) (s : Str)
    (h : isSubstr (p :: ps) s = false) : replaceAll p ps rep s = s :=
  replaceAllF_not_substr p ps rep s.length s h

/-- **C2 (counterexample).**  Canonicalization is not idempotent: for
`"https://mail.example.com/page"` the first pass narrows the domain to
the last two labels of the URL netloc, but re-canonicalizing the returned
normalized link (which no longer has a scheme) takes the whole prefix
before the first slash as the domain, yielding a different result. -/
theorem C2_counterexample :
    shorten_link (lit "https://mail.example.com/page")
        = (lit "mail.example.com/page", lit "example.com") ∧
    shorten_link ((shorten_link (lit "https://mail.example.com/page")).1)
        ≠ shorten_link (lit "https://mail.example.com/page") := by
  constructor
  · decide
  · decide

/-- **C2 (amended).**  `_shorten_link` is a pure function, and it is
idempotent on link strings whose text the normalization pass leaves
unchanged: already lower-case, containing no `www.`, and carrying no
`http(s)://` prefix.  (In general re-canonicalization can change the
domain component, see the counterexample.) -/
theorem C2_amended (s : Str) (h1 : pyLower s = s)
    (h2 : isSubstr (lit "www.") s = false)
    (h4 : stripHttpScheme s = s) :
    shorten_link ((shorten_link s).1) = shorten_link s := by
  have hl : lit "www." = 'w' :: 'w' :: 'w' :: '.' :: [] := rfl
  have hrep : pyReplace (lit "www.") [] (pyLower s) = s := by
    rw [h1, hl]
    exact replaceAll_not_substr _ _ _ s (hl ▸ h2)
  have hfst : (shorten_link s).1 = s := by
    simp only [shorten_link, hrep, h4]
  rw [hfst]

theorem C2_amended_witness :
    shorten_link ((shorten_link (lit "example.com/page")).1)
      = shorten_link (lit "example.com/page") :=
  C2_amended _ (by decide) (by decide) (by decide)

/-- **C1.**  With cluster configuration `{"foo|bar": style}`, an edge to
a node labeled `"bar-site.com"` registers that node under a *new* cluster
bucket `"bar"` (the escaped matched alias), and no bucket `"foo"` exists:
`_make_graph_body` keys buckets by the matched alias, not by the first
alias of the configuration entry, contradicting `_prepare_cluster_map`'s
own docstring ("sets the first one as the whole cluster's name"). -/
theorem C1_alias_bucket_divergence :
    (make_graph_body ⟨[(lit "foo|bar", lit "style")], [], lit "youtube"⟩
        [⟨(lit "src", none), (lit "bar-site.com", none), [], []⟩]).map
      (fun o => (alookup o.clusters (lit "foo"), alookup o.clusters (lit "bar")))
      = some (none, some [2]) := by
  decide

/-- **C7 (counterexample).**  The tie-break of the per-cluster ordering
does not preserve first-seen order: a bucket listing node `2` before node
`8`, with equal inbound counts, is emitted as `[8, 2]`, because
`list(set(...))` iterates the CPython hash table in slot order
(`8 % 8 = 0` precedes `2`). -/
theorem C7_counterexample :
    reorder_nodes_by_clusters [] [(lit "clu", [2, 8])] (fun _ => 0)
        = [(8, lit "clu"), (2, lit "clu")] ∧
    reorder_nodes_by_clusters [] [(lit "clu", [2, 8])] (fun _ => 0)
        ≠ [(2, lit "clu"), (8, lit "clu")] := by
  constructor
  · decide
  · decide

/-- **C8 (counterexample).**  With edge minimization disabled, an edge
with empty attribution is *not* rendered without a color attribute: the
emitted declaration carries an explicit `color=""`, which overrides the
graph-level default edge color instead of inheriting it. -/
theorem C8_counterexample :
    ((format_edges false [(lit "a.com", lit "b.com", ([] : Str))]).all
        (fun e => decide (e.color = none))) = false := by
  decide

theorem bumpConn_filter_sum {α : Type} [DecidableEq α] (a b : α)
    (d : List ((α × α × Str) × Nat)) (t : α × α × Str) :
    (((bumpConn d t).filter (pairTest a b)).map (·.2)).sum
      = ((d.filter (pairTest a b)).map (·.2)).sum
        + (if t.1 = a ∧ t.2.1 = b then 1 else 0) := by
  induction d with
  | nil =>
    by_cases h : t.1 = a ∧ t.2.1 = b
    · have hp : pairTest a b (t, 1) = true := by simp [pairTest, h]
      simp [bumpConn, hp, h]
    · have hp : pairTest a b (t, 1) = false := by simp [pairTest, h]
      simp [bumpConn, hp, h]
  | cons e r ih =>
    obtain ⟨te, n⟩ := e
    by_cases he : te = t
    · subst he
      by_cases h : te.1 = a ∧ te.2.1 = b
      · have hp1 : pairTest a b (te, n + 1) = true := by simp [pairTest, h]
        have hp2 : pairTest a b (te, n) = true := by simp [pairTest, h]
        simp [bumpConn, hp1, hp2, h]
        omega
      · have hp1 : pairTest a b (te, n + 1) = false := by simp [pairTest, h]
        have hp2 : pairTest a b (te, n) = false := by simp [pairTest, h]
        simp [bumpConn, hp1, hp2, h]
    · by_cases h : te.1 = a ∧ te.2.1 = b
      · have hp2 : pairTest a b (te, n) = true := by simp [pairTest, h]
        simp [bumpConn, he, hp2, ih]
        omega
      · have hp2 : pairTest a b (te, n) = false := by simp [pairTest, h]
        simp [bumpConn, he, hp2, ih]

theorem collapse_filter_sum {α : Type} [DecidableEq α] (a b : α) :
    ∀ (conns : List (α × α × Str)) (d : List ((α × α × Str) × Nat)),
      (((conns.foldl bumpConn d).filter (pairTest a b)).map (·.2)).sum
        = ((d.filter (pairTest a b)).map (·.2)).sum
          + conns.countP (connTest a b) := by
  intro conns
  induction conns with
  | nil => intro d; simp
  | cons t r ih =>
    intro d
    simp only [List.foldl_cons, List.countP_cons]
    rw [ih (bumpConn d t), bumpConn_filter_sum]
    by_cases h : t.1 = a ∧ t.2.1 = b
    · have hc : connTest a b t = true := by simp [connTest, h]
      simp [hc, h]
      omega
    · have hc : connTest a b t = false := by simp [connTest, h]
      simp [hc, h]

/-- **C3.**  Edge-minimization equivalence: for every connection list and
every node pair, the sum of the multiplicities recorded by the collapse
dict of `_format_edges` over entries between that pair equals the number
of edges rendered between that pair without minimization; and in the
spec's scenario, minimization off renders 3 edges while minimization on
renders 2, exactly one of which carries a width scaled for multiplicity 2
(doubled width `penwidth2 = 2*BASE_EDGE_WIDTH + 2 = 6`, i.e. an emitted
`penwidth` of `3.0`). -/
theorem C3_minimization_equivalence :
    (∀ (conns : List (Str × Str × Str)) (a b : Str),
      (((collapseConns conns).filter (pairTest a b)).map (·.2)).sum
        = ((format_edges false conns).filter (edgeTest a b)).length) ∧
    (format_edges false scenarioEdges).length = 3 ∧
    (format_edges true scenarioEdges).length = 2 ∧
    ((format_edges true scenarioEdges).filter
        (fun e => decide (e.penwidth2 = some 6))).length = 1 := by
  refine ⟨?_, by decide, by decide, by decide⟩
  intro conns a b
  rw [show collapseConns conns = conns.foldl bumpConn [] from rfl,
    collapse_filter_sum]
  rw [show format_edges false conns
      = conns.map (fun c => (⟨c.1, c.2.1, some c.2.2, none⟩ : EdgeDecl Str)) from rfl]
  rw [List.filter_map, List.length_map, ← List.countP_eq_length_filter]
  simp only [List.filter_nil, List.map_nil, List.sum_nil, Nat.zero_add]
  rfl

theorem foldlM_body_none (cfg : GraphConfig) :
    ∀ (conns : List Conn4) (st : BodyState),
      (∃ e ∈ conns, e.author ≠ [] ∧ alookup cfg.styling e.author = none) →
      conns.foldlM (body_step cfg) st = none := by
  intro conns
  induction conns with
  | nil => intro st h; simp at h
  | cons c r ih =>
    intro st h
    rcases h with ⟨e, he, hbad⟩
    rcases List.mem_cons.mp he with rfl | hr
    · have hnone : body_step cfg st e = none := by
        simp only [body_step]
        rw [if_pos hbad.1, hbad.2]
        rfl
      simp [List.foldlM_cons, hnone]
    · cases hcs : body_step cfg st c with
      | none => simp [List.foldlM_cons, hcs]
      | some st2 =>
        simp only [List.foldlM_cons, hcs, Option.bind_eq_bind, Option.some_bind]
        exact ih st2 ⟨e, hr, hbad⟩

/-- **C9.**  An edge whose nonempty attribution hash is missing from the
configured suspect-user styling table makes graph construction fail
fatally: `_make_graph_body` propagates the uncaught `KeyError` of
`SPECIAL_USER_STYLING[author]` (modelled as `none`) instead of dropping
the edge or styling it with a default. -/
theorem C9_unknown_attribution_fatal (cfg : GraphConfig)
    (connections : List Conn4)
    (h : ∃ e ∈ connections, e.author ≠ [] ∧ alookup cfg.styling e.author = none) :
    make_graph_body cfg connections = none := by
  unfold make_graph_body
  rw [foldlM_body_none cfg connections _ h]

theorem C9_unknown_attribution_fatal_witness :
    make_graph_body ⟨[], [(lit "h1", (lit "Bob", lit "red"))], lit "youtube"⟩
      [⟨(lit "s", none), (lit "t", none), lit "h2", []⟩] = none :=
  C9_unknown_attribution_fatal _ _ (by decide)

/-- **C8 (amended).**  With edge minimization *enabled*, an edge with
empty attribution carries no explicit color attribute at all, so it
inherits the graph-level default edge color (`edge [color="#8caff3"]` in
`DEFAULT_GRAPH_PARAMS`); with minimization *disabled*, every edge —
attributed or not — carries an explicit color attribute equal to its raw
color, which is the empty string for unattributed edges and overrides the
inherited default. -/
theorem C8_amended (conns : List (Str × Str × Str)) (e : EdgeDecl Str) :
    (e ∈ format_edges true conns → e.color ≠ some []) ∧
    (e ∈ format_edges false conns → ∃ c, e.color = some c) ∧
    (alookup DEFAULT_GRAPH_PARAMS (lit "edge")).map (fun ps => alookup ps (lit "color"))
      = some (some (lit "#8caff3")) := by
  refine ⟨?_, ?_, by decide⟩
  · intro hm
    have hrw : format_edges true conns
        = (collapseConns conns).map (fun ent => (⟨ent.1.1, ent.1.2.1,
            if ent.1.2.2 ≠ [] then some ent.1.2.2 else none,
            if ent.2 > 1 then some (2 * BASE_EDGE_WIDTH + ent.2) else none⟩ :
              EdgeDecl Str)) := rfl
    rw [hrw] at hm
    rcases List.mem_map.mp hm with ⟨ent, _, heq⟩
    by_cases hc : ent.1.2.2 = []
    · rw [← heq]; simp [hc]
    · rw [← heq]; simp [hc]
  · intro hm
    have hrw : format_edges false conns
        = conns.map (fun c => (⟨c.1, c.2.1, some c.2.2, none⟩ : EdgeDecl Str)) := rfl
    rw [hrw] at hm
    rcases List.mem_map.mp hm with ⟨c, _, heq⟩
    exact ⟨c.2.2, by rw [← heq]⟩

theorem C8_amended_witness :
    ∃ c, (⟨lit "a.com", lit "b.com", some [], none⟩ : EdgeDecl Str).color = some c :=
  (C8_amended [(lit "a.com", lit "b.com", [])]
    ⟨lit "a.com", lit "b.com", some [], none⟩).2.1 (by decide)

theorem alookup_cons {κ ν : Type} [DecidableEq κ] (e : κ × ν) (t : List (κ × ν))
    (k2 : κ) : alookup (e :: t) k2 = if e.1 = k2 then some e.2 else alookup t k2 := by
  by_cases h : e.1 = k2 <;> simp [alookup, List.find?, h]

theorem alookup_dictInsert {κ ν : Type} [DecidableEq κ] (m : List (κ × ν)) (k : κ)
    (v : ν) (k2 : κ) :
    alookup (dictInsert m k v) k2 = if k2 = k then some v else alookup m k2 := by
  induction m with
  | nil =>
    by_cases h : k2 = k
    · subst h; simp [alookup, dictInsert, List.find?]
    · simp [alookup, dictInsert, List.find?, h, Ne.symm h]
  | cons e t ih =>
    by_cases he : e.1 = k
    · simp only [dictInsert, if_pos he]
      rw [alookup_cons, alookup_cons]
      by_cases h : k2 = k
      · simp [h]
      · simp [h, Ne.symm h, he]
    · simp only [dictInsert, if_neg he]
      rw [alookup_cons, alookup_cons, ih]
      by_cases h : k2 = k
      · subst h
        rw [if_pos rfl, if_pos rfl, if_neg he]
      · rw [if_neg h, if_neg h]

theorem firstIdx_append_mem (k : Str) :
    ∀ (K L : List Str), k ∈ K → firstIdx k (K ++ L) = firstIdx k K := by
  intro K
  induction K with
  | nil => intro L h; cases h
  | cons a K ih =>
    intro L h
    by_cases ha : a = k
    · simp [firstIdx, List.findIdx_cons, ha]
    · have hm : k ∈ K := by
        rcases List.mem_cons.mp h with rfl | hm
        · exact absurd rfl ha
        · exact hm
      have := ih L hm
      simp only [firstIdx, List.cons_append, List.findIdx_cons, ha] at this ⊢
      simp [this]

theorem firstIdx_append_self (k : Str) :
    ∀ K : List Str, k ∉ K → firstIdx k (K ++ [k]) = K.length := by
  intro K
  induction K with
  | nil => intro h; simp [firstIdx, List.findIdx_cons]
  | cons a K ih =>
    intro h
    have ha : ¬ a = k := fun e => h (e ▸ List.mem_cons_self a K)
    have hk : k ∉ K := fun hm => h (List.mem_cons_of_mem a hm)
    have := ih hk
    simp only [firstIdx, List.cons_append, List.findIdx_cons, ha] at this ⊢
    simp [this, ha]

theorem runFormat_inv (cfg : GraphConfig) :
    ∀ (ls : List Str) (st : NodeState) (K : List Str),
      st.num = K.length + 1 →
      (∀ k, alookup st.codes k
        = if k ∈ K then some (firstIdx k K + 1) else none) →
      (ls.foldl (fun s x => (format_node cfg s x).2.2) st).num
          = (K ++ ls.map preLabel).length + 1 ∧
      (∀ k, alookup (ls.foldl (fun s x => (format_node cfg s x).2.2) st).codes k
        = if k ∈ K ++ ls.map preLabel
          then some (firstIdx k (K ++ ls.map preLabel) + 1) else none) := by
  intro ls
  induction ls with
  | nil =>
    intro st K h1 h2
    constructor
    · simpa using h1
    · intro k; simpa using h2 k
  | cons x r ih =>
    intro st K h1 h2
    have hcodes : ((format_node cfg st x).2.2).codes
        = dictInsert st.codes (preLabel x)
            (match alookup st.codes (preLabel x) with
             | some n => n
             | none => st.num) := rfl
    have hnum : ((format_node cfg st x).2.2).num = st.num + 1 := rfl
    have hstep1 : ((format_node cfg st x).2.2).num = (K ++ [preLabel x]).length + 1 := by
      rw [hnum, h1]; simp
    have hstep2 : ∀ k, alookup ((format_node cfg st x).2.2).codes k
        = if k ∈ K ++ [preLabel x]
          then some (firstIdx k (K ++ [preLabel x]) + 1) else none := by
      intro k
      rw [hcodes, alookup_dictInsert]
      by_cases hk : k = preLabel x
      · subst hk
        rw [if_pos rfl, if_pos (by simp)]
        by_cases hmem : preLabel x ∈ K
        · rw [h2 (preLabel x), if_pos hmem,
            firstIdx_append_mem (preLabel x) K [preLabel x] hmem]
        · rw [h2 (preLabel x), if_neg hmem,
            firstIdx_append_self (preLabel x) K hmem, h1]
      · rw [if_neg hk, h2 k]
        by_cases hmem : k ∈ K
        · rw [if_pos hmem, if_pos (by simp [hmem]),
            firstIdx_append_mem k K [preLabel x] hmem]
        · rw [if_neg hmem, if_neg (by simp [hmem, hk])]
    have hmain := ih ((format_node cfg st x).2.2) (K ++ [preLabel x]) hstep1 hstep2
    constructor
    · have := hmain.1
      simpa [List.append_assoc] using this
    · intro k
      have := hmain.2 k
      simpa [List.append_assoc] using this

/-- **C5.**  Node identity is stable: after registering any sequence of
display labels, each label's identity key maps to the numeric ID
`first-occurrence-index + 1` — so the first new label receives ID 1, IDs
are assigned on first sight in strictly increasing order (the counter
also advances on repeated labels, leaving gaps but preserving
monotonicity), the key-to-ID mapping never changes once made, and
re-registering the same display label returns the same ID again. -/
theorem C5_stable_node_identity (cfg : GraphConfig) (ls : List Str) (x : Str)
    (hx : x ∈ ls) :
    alookup (runFormat cfg ls).codes (preLabel x)
        = some (firstIdx (preLabel x) (ls.map preLabel) + 1) ∧
    (format_node cfg (runFormat cfg ls) x).1
        = firstIdx (preLabel x) (ls.map preLabel) + 1 := by
  have h := runFormat_inv cfg ls ⟨[], 1⟩ [] (by simp)
    (by intro k; simp [alookup, List.find?])
  have hmem : preLabel x ∈ ls.map preLabel := List.mem_map_of_mem _ hx
  have hrun : runFormat cfg ls = ls.foldl (fun s x => (format_node cfg s x).2.2) ⟨[], 1⟩ := rfl
  have hl : alookup (runFormat cfg ls).codes (preLabel x)
      = some (firstIdx (preLabel x) (ls.map preLabel) + 1) := by
    rw [hrun]
    have := h.2 (preLabel x)
    rw [if_pos (by simpa using hmem)] at this
    simpa using this
  refine ⟨hl, ?_⟩
  have hfst : (format_node cfg (runFormat cfg ls) x).1
      = match alookup (runFormat cfg ls).codes (preLabel x) with
        | some n => n
        | none => (runFormat cfg ls).num := rfl
  rw [hfst, hl]

theorem C5_stable_node_identity_witness :
    alookup (runFormat ⟨[], [], lit "youtube"⟩ [lit "a", lit "b", lit "a"]).codes
        (preLabel (lit "b"))
      = some (firstIdx (preLabel (lit "b"))
          ([lit "a", lit "b", lit "a"].map preLabel) + 1) ∧
    (format_node ⟨[], [], lit "youtube"⟩
        (runFormat ⟨[], [], lit "youtube"⟩ [lit "a", lit "b", lit "a"]) (lit "b")).1
      = firstIdx (preLabel (lit "b")) ([lit "a", lit "b", lit "a"].map preLabel) + 1 :=
  C5_stable_node_identity _ _ _ (by decide)

theorem chunkStep_ok (s : ChunkSt) (n : Nat) (h : chunkOk s) :
    chunkOk (chunkStep s n) ∧ chunkCount (chunkStep s n) = chunkCount s + 1 := by
  obtain ⟨h1, h2, h3⟩ := h
  by_cases hi : s.i = MAX_NODES_IN_COLUMN - 1
  · constructor
    · refine ⟨?_, ?_, ?_⟩ <;> simp only [chunkStep, if_pos hi]
      · rfl
      · simp [MAX_NODES_IN_COLUMN]
      · intro g hg
        rcases List.mem_append.mp hg with hg1 | hg2
        · exact h3 g hg1
        · rw [List.mem_singleton.mp hg2]
          simp only [List.length_append, List.length_singleton]
          simp only [MAX_NODES_IN_COLUMN] at hi ⊢
          omega
    · simp only [chunkStep, if_pos hi, chunkCount, List.map_append,
        List.sum_append]
      simp only [List.map_cons, List.map_nil, List.sum_cons, List.sum_nil,
        List.length_append, List.length_singleton, List.length_nil]
      omega
  · constructor
    · refine ⟨?_, ?_, ?_⟩ <;> simp only [chunkStep, if_neg hi]
      · simp [h1]
      · simp only [List.length_append, List.length_singleton]
        simp only [MAX_NODES_IN_COLUMN] at h2 hi ⊢
        omega
      · intro g hg
        exact h3 g hg
    · simp only [chunkStep, if_neg hi, chunkCount]
      simp only [List.length_append, List.length_singleton]
      omega

theorem chunkFold_ok :
    ∀ (ns : List Nat) (s : ChunkSt), chunkOk s →
      chunkOk (ns.foldl chunkStep s) ∧
      chunkCount (ns.foldl chunkStep s) = chunkCount s + ns.length := by
  intro ns
  induction ns with
  | nil => intro s h; exact ⟨h, by simp⟩
  | cons n r ih =>
    intro s h
    have hs := chunkStep_ok s n h
    have hr := ih (chunkStep s n) hs.1
    refine ⟨hr.1, ?_⟩
    simp only [List.foldl_cons]
    rw [hr.2, hs.2]
    simp only [List.length_cons]
    omega

theorem nodeGroups_spec (ns : List Nat) :
    (∀ g ∈ (nodeGroups ns).dropLast, g.length = MAX_NODES_IN_COLUMN) ∧
    (∀ g ∈ nodeGroups ns, g.length ≤ MAX_NODES_IN_COLUMN) ∧
    (ns ≠ [] → nodeGroups ns ≠ [] ∧
      ((nodeGroups ns).headD []).length = min MAX_NODES_IN_COLUMN ns.length) := by
  have hinit : chunkOk (⟨[], [], 0⟩ : ChunkSt) := by
    refine ⟨rfl, ?_, ?_⟩
    · simp [MAX_NODES_IN_COLUMN]
    · intro g hg; cases hg
  have hfold := chunkFold_ok ns ⟨[], [], 0⟩ hinit
  obtain ⟨⟨h1, h2, h3⟩, hcnt⟩ := hfold
  have hcnt0 : ((ns.foldl chunkStep ⟨[], [], 0⟩).groups.map List.length).sum
      + (ns.foldl chunkStep ⟨[], [], 0⟩).buffer.length = ns.length := by
    simpa [chunkCount] using hcnt
  have hng : nodeGroups ns
      = if (ns.foldl chunkStep ⟨[], [], 0⟩).buffer ≠ []
        then (ns.foldl chunkStep ⟨[], [], 0⟩).groups
          ++ [(ns.foldl chunkStep ⟨[], [], 0⟩).buffer]
        else (ns.foldl chunkStep ⟨[], [], 0⟩).groups := rfl
  by_cases hb : (ns.foldl chunkStep ⟨[], [], 0⟩).buffer = []
  · rw [hng, if_neg (by simp [hb])]
    refine ⟨?_, ?_, ?_⟩
    · intro g hg
      exact h3 g ((List.dropLast_sublist _).subset hg)
    · intro g hg
      exact (h3 g hg).le
    · intro hne
      cases hgl : (ns.foldl chunkStep ⟨[], [], 0⟩).groups with
      | nil =>
        exfalso
        rw [hgl, hb] at hcnt0
        simp at hcnt0
        exact hne (List.length_eq_zero.mp hcnt0.symm)
      | cons g0 gr =>
        constructor
        · simp
        · have hg0 : g0.length = MAX_NODES_IN_COLUMN :=
            h3 g0 (by rw [hgl]; exact List.mem_cons_self _ _)
          have hge : MAX_NODES_IN_COLUMN ≤ ns.length := by
            rw [hgl, hb] at hcnt0
            simp only [List.map_cons, List.sum_cons, List.length_nil] at hcnt0
            omega
          simp [hg0, Nat.min_eq_left hge]
  · rw [hng, if_pos (by simp [hb])]
    refine ⟨?_, ?_, ?_⟩
    · intro g hg
      rw [List.dropLast_concat] at hg
      exact h3 g hg
    · intro g hg
      rcases List.mem_append.mp hg with hg1 | hg2
      · exact (h3 g hg1).le
      · rw [List.mem_singleton.mp hg2]
        exact h2.le
    · intro hne
      refine ⟨by simp, ?_⟩
      cases hgl : (ns.foldl chunkStep ⟨[], [], 0⟩).groups with
      | nil =>
        have hbl : (ns.foldl chunkStep ⟨[], [], 0⟩).buffer.length = ns.length := by
          rw [hgl] at hcnt0
          simpa using hcnt0
        have hlt : ns.length < MAX_NODES_IN_COLUMN := hbl ▸ h2
        simp [hbl, Nat.min_eq_right hlt.le]
      | cons g0 gr =>
        have hg0 : g0.length = MAX_NODES_IN_COLUMN :=
          h3 g0 (by rw [hgl]; exact List.mem_cons_self _ _)
        have hge : MAX_NODES_IN_COLUMN ≤ ns.length := by
          rw [hgl] at hcnt0
          simp only [List.map_cons, List.sum_cons] at hcnt0
          omega
        simp [hg0, Nat.min_eq_left hge]

theorem padGroups_spec (gs : List (List (Option Nat)))
    (hdrop : ∀ g ∈ gs.dropLast, g.length = MAX_NODES_IN_COLUMN)
    (hle : ∀ g ∈ gs, g.length ≤ MAX_NODES_IN_COLUMN)
    (hne : gs ≠ []) :
    ∃ rest, padGroups gs = some (gs.headD [], rest) ∧ rest ≠ [] ∧
      (∀ g ∈ rest, g.length = (gs.headD []).length) ∧
      (∀ g ∈ rest.dropLast, g.length = MAX_NODES_IN_COLUMN) := by
  rcases List.eq_nil_or_concat gs with rfl | ⟨L, b, rfl⟩
  · exact absurd rfl hne
  rw [List.concat_eq_append] at hdrop hle ⊢
  cases L with
  | nil =>
    refine ⟨[b], ?_, by simp, ?_, by simp⟩
    · simp [padGroups]
    · intro g hg
      rw [List.mem_singleton.mp hg]
      simp
  | cons g0 L2 =>
    simp only [List.cons_append] at hdrop hle ⊢
    have hdl : (g0 :: (L2 ++ [b])).dropLast = g0 :: L2 := by
      rw [← List.cons_append, List.dropLast_concat]
    have hlast : (g0 :: (L2 ++ [b])).getLastD [] = b := by
      rw [← List.cons_append, List.getLastD_concat]
    have hdrop2 : ∀ g ∈ g0 :: L2, g.length = MAX_NODES_IN_COLUMN := by
      intro g hg
      apply hdrop
      rw [hdl]
      exact hg
    have hg0 : g0.length = MAX_NODES_IN_COLUMN :=
      hdrop2 g0 (List.mem_cons_self _ _)
    have hble : b.length ≤ MAX_NODES_IN_COLUMN := hle b (by simp)
    by_cases hlt : b.length < MAX_NODES_IN_COLUMN
    · have hdiff : (0 : Int) < (g0.length : Int) - (b.length : Int) := by
        rw [hg0]; omega
      have hpad : padGroups (g0 :: (L2 ++ [b]))
          = some (g0, (g0 :: L2)
              ++ [b ++ List.replicate
                    ((g0.length : Int) - (b.length : Int)).toNat none]) := by
        simp only [padGroups, hlast, hdl]
        rw [if_pos hdiff]
      refine ⟨(g0 :: L2)
          ++ [b ++ List.replicate ((g0.length : Int) - (b.length : Int)).toNat none],
        ?_, by simp, ?_, ?_⟩
      · simpa using hpad
      · intro g hg
        simp only [List.headD_cons]
        rw [hg0]
        rcases List.mem_append.mp hg with hg1 | hg2
        · exact hdrop2 g hg1
        · rw [List.mem_singleton.mp hg2]
          simp only [List.length_append, List.length_replicate]
          omega
      · intro g hg
        rw [List.dropLast_concat] at hg
        exact hdrop2 g hg
    · have hbfull : b.length = MAX_NODES_IN_COLUMN :=
        le_antisymm hble (by omega)
      have hpad : padGroups (g0 :: (L2 ++ [b])) = some (g0, g0 :: (L2 ++ [b])) := by
        simp only [padGroups, hlast, hdl]
        rw [if_neg (by omega)]
      refine ⟨g0 :: (L2 ++ [b]), ?_, by simp, ?_, ?_⟩
      · simpa using hpad
      · intro g hg
        simp only [List.headD_cons]
        rw [hg0]
        rcases List.mem_cons.mp hg with rfl | hg2
        · exact hg0
        · rcases List.mem_append.mp hg2 with hg3 | hg4
          · exact hdrop2 g (List.mem_cons_of_mem _ hg3)
          · rw [List.mem_singleton.mp hg4]
            exact hbfull
      · intro g hg
        rw [hdl] at hg
        exact hdrop2 g hg

theorem splitColumns_fst (start : Str) (ob : List Nat) :
    ∀ (ncs : List (Nat × Str)) (acc : List Nat × List Nat × List Nat),
      (ncs.foldl
        (fun (acc : List Nat × List Nat × List Nat) p =>
          if p.2 = start then
            if p.1 ∈ ob then (acc.1, acc.2.1 ++ [p.1], acc.2.2)
            else (acc.1, acc.2.1, acc.2.2 ++ [p.1])
          else (acc.1 ++ [p.1], acc.2.1, acc.2.2)) acc).1
        = acc.1 ++ (ncs.filter (fun p => decide (p.2 ≠ start))).map (·.1) := by
  intro ncs
  induction ncs with
  | nil => intro acc; simp
  | cons p r ih =>
    intro acc
    simp only [List.foldl_cons]
    by_cases hp : p.2 = start
    · have hfil : (p :: r).filter (fun q => decide (q.2 ≠ start))
          = r.filter (fun q => decide (q.2 ≠ start)) := by
        simp [hp]
      rw [if_pos hp, hfil]
      by_cases hm : p.1 ∈ ob
      · rw [if_pos hm, ih]
      · rw [if_neg hm, ih]
    · have hfil : (p :: r).filter (fun q => decide (q.2 ≠ start))
          = p :: r.filter (fun q => decide (q.2 ≠ start)) := by
        simp [hp]
      rw [if_neg hp, hfil, ih]
      simp

theorem grid_columns_spec (start : Str) (ncs : List (Nat × Str))
    (conns : List (Nat × Nat × Str)) (h : ∃ p ∈ ncs, p.2 ≠ start) :
    ∃ first rest,
      padGroups (nodeGroups (splitColumns start ncs (conns.map (·.1))).1)
        = some (first, rest) ∧
      rest ≠ [] ∧
      (∀ g ∈ rest, g.length = first.length) ∧
      (∀ g ∈ rest.dropLast, g.length = MAX_NODES_IN_COLUMN) ∧
      first.length
        = min MAX_NODES_IN_COLUMN
            (splitColumns start ncs (conns.map (·.1))).1.length := by
  have hsc : (splitColumns start ncs (conns.map (·.1))).1
      = [] ++ (ncs.filter (fun p => decide (p.2 ≠ start))).map (·.1) := by
    rw [splitColumns]
    exact splitColumns_fst start (conns.map (·.1)) ncs ([], [], [])
  have hne : (splitColumns start ncs (conns.map (·.1))).1 ≠ [] := by
    rw [hsc]
    obtain ⟨p, hp, hps⟩ := h
    have : p ∈ ncs.filter (fun p => decide (p.2 ≠ start)) :=
      List.mem_filter.mpr ⟨hp, by simpa using hps⟩
    simp only [List.nil_append]
    intro hcon
    rw [List.map_eq_nil] at hcon
    rw [hcon] at this
    cases this
  obtain ⟨hdrop, hle, hrest⟩ := nodeGroups_spec (splitColumns start ncs (conns.map (·.1))).1
  obtain ⟨hgne, hhead⟩ := hrest hne
  obtain ⟨rest, hpad, hrne, hall, hdl⟩ := padGroups_spec _ hdrop hle hgne
  refine ⟨_, rest, hpad, hrne, hall, hdl, hhead⟩

/-- **C4.**  After layout (given at least one node outside the starting
cluster), the generated columns all have equal height: every column but
possibly the last holds exactly `MAX_NODES_IN_COLUMN` nodes, the final
column is padded with blank placeholders up to the first column's height,
and the first column's height is `min MAX_NODES_IN_COLUMN n` for `n` the
number of laid-out nodes. -/
theorem C4_column_padding (start : Str) (ncs : List (Nat × Str))
    (conns : List (Nat × Nat × Str)) (h : ∃ p ∈ ncs, p.2 ≠ start) :
    ∃ first rest,
      padGroups (nodeGroups (splitColumns start ncs (conns.map (·.1))).1)
        = some (first, rest) ∧
      rest ≠ [] ∧
      (∀ g ∈ rest, g.length = first.length) ∧
      (∀ g ∈ rest.dropLast, g.length = MAX_NODES_IN_COLUMN) ∧
      first.length
        = min MAX_NODES_IN_COLUMN
            (splitColumns start ncs (conns.map (·.1))).1.length :=
  grid_columns_spec start ncs conns h

theorem C4_column_padding_witness :
    ∃ first rest,
      padGroups (nodeGroups
          (splitColumns (lit "youtube") [(1, lit "x")]
            (([] : List (Nat × Nat × Str)).map (·.1))).1)
        = some (first, rest) ∧
      rest ≠ [] ∧
      (∀ g ∈ rest, g.length = first.length) ∧
      (∀ g ∈ rest.dropLast, g.length = MAX_NODES_IN_COLUMN) ∧
      first.length
        = min MAX_NODES_IN_COLUMN
            (splitColumns (lit "youtube") [(1, lit "x")]
              (([] : List (Nat × Nat × Str)).map (·.1))).1.length :=
  C4_column_padding _ _ _ (by decide)

/-- **C10.**  `place_nodes_in_grid` needs at least one node outside the
starting cluster: when every listed node belongs to the starting cluster
the grouped node list is empty and the padding step's `node_groups[0]`
raises an uncaught `IndexError` (modelled `none`); when some node lies
outside, the indexing is in bounds and layout succeeds. -/
theorem C10_grid_requires_outside_node (start : Str) (ncs : List (Nat × Str))
    (conns : List (Nat × Nat × Str)) :
    ((∀ p ∈ ncs, p.2 = start) → place_nodes_in_grid start ncs conns = none) ∧
    ((∃ p ∈ ncs, p.2 ≠ start) →
      (place_nodes_in_grid start ncs conns).isSome = true) := by
  constructor
  · intro hall
    have hsc : (splitColumns start ncs (conns.map (·.1))).1
        = [] ++ (ncs.filter (fun p => decide (p.2 ≠ start))).map (·.1) := by
      rw [splitColumns]
      exact splitColumns_fst start (conns.map (·.1)) ncs ([], [], [])
    have hfe : ncs.filter (fun p => decide (p.2 ≠ start)) = [] := by
      apply List.filter_eq_nil.mpr
      intro p hp
      simp [hall p hp]
    have hnodes : (splitColumns start ncs (conns.map (·.1))).1 = [] := by
      rw [hsc, hfe]; simp
    simp only [place_nodes_in_grid, hnodes]
    rfl
  · intro hex
    obtain ⟨first, rest, hpad, _, _, _, _⟩ := grid_columns_spec start ncs conns hex
    simp only [place_nodes_in_grid, hpad]
    rfl

theorem C10_grid_requires_outside_node_witness :
    place_nodes_in_grid (lit "youtube") [(1, lit "youtube")] [] = none ∧
    (place_nodes_in_grid (lit "youtube") [(1, lit "x")] []).isSome = true :=
  ⟨(C10_grid_requires_outside_node (lit "youtube") [(1, lit "youtube")] []).1 (by decide),
   (C10_grid_requires_outside_node (lit "youtube") [(1, lit "x")] []).2 (by decide)⟩

theorem bucketAdd_covered_mono (cl : List (Str × List Nat)) (k : Str) (x m : Nat)
    (h : covered cl m) : covered (bucketAdd cl k x) m := by
  induction cl with
  | nil =>
    rcases h with ⟨b, hb, _⟩
    cases hb
  | cons e t ih =>
    rcases h with ⟨b, hb, hm⟩
    rcases List.mem_cons.mp hb with rfl | hbt
    · by_cases he : b.1 = k
      · exact ⟨(b.1, b.2 ++ [x]), by simp [bucketAdd, he], List.mem_append_left _ hm⟩
      · exact ⟨b, by simp [bucketAdd, he], hm⟩
    · by_cases he : e.1 = k
      · exact ⟨b, by simp [bucketAdd, he, hbt], hm⟩
      · rcases ih ⟨b, hbt, hm⟩ with ⟨b2, hb2, hm2⟩
        exact ⟨b2, by simp [bucketAdd, he, hb2], hm2⟩

theorem bucketAdd_covered_self (cl : List (Str × List Nat)) (k : Str) (x : Nat) :
    covered (bucketAdd cl k x) x := by
  induction cl with
  | nil => exact ⟨(k, [x]), by simp [bucketAdd], by simp⟩
  | cons e t ih =>
    by_cases he : e.1 = k
    · exact ⟨(e.1, e.2 ++ [x]), by simp [bucketAdd, he], by simp⟩
    · rcases ih with ⟨b, hb, hm⟩
      exact ⟨b, by simp [bucketAdd, he, hb], hm⟩

theorem mtc_fold_inv (t : Str) (slabel : Nat) :
    ∀ (aliases : List Str) (cl : List (Str × List Nat)) (cz : List Nat),
      (∀ m, covered cl m →
        covered (aliases.foldl
          (fun (acc : List (Str × List Nat) × List Nat) cname =>
            if isSubstr cname t then
              (bucketAdd acc.1 (escape_special_chars cname) slabel,
               if slabel ∈ acc.2 then acc.2 else acc.2 ++ [slabel])
            else acc) (cl, cz)).1 m) ∧
      (∀ m ∈ cz,
        m ∈ (aliases.foldl
          (fun (acc : List (Str × List Nat) × List Nat) cname =>
            if isSubstr cname t then
              (bucketAdd acc.1 (escape_special_chars cname) slabel,
               if slabel ∈ acc.2 then acc.2 else acc.2 ++ [slabel])
            else acc) (cl, cz)).2) ∧
      ((∀ m ∈ cz, covered cl m) →
        ∀ m ∈ (aliases.foldl
          (fun (acc : List (Str × List Nat) × List Nat) cname =>
            if isSubstr cname t then
              (bucketAdd acc.1 (escape_special_chars cname) slabel,
               if slabel ∈ acc.2 then acc.2 else acc.2 ++ [slabel])
            else acc) (cl, cz)).2,
        covered (aliases.foldl
          (fun (acc : List (Str × List Nat) × List Nat) cname =>
            if isSubstr cname t then
              (bucketAdd acc.1 (escape_special_chars cname) slabel,
               if slabel ∈ acc.2 then acc.2 else acc.2 ++ [slabel])
            else acc) (cl, cz)).1 m) ∧
      ((slabel ∈ cz → covered cl slabel) →
        slabel ∈ (aliases.foldl
          (fun (acc : List (Str × List Nat) × List Nat) cname =>
            if isSubstr cname t then
              (bucketAdd acc.1 (escape_special_chars cname) slabel,
               if slabel ∈ acc.2 then acc.2 else acc.2 ++ [slabel])
            else acc) (cl, cz)).2 →
        covered (aliases.foldl
          (fun (acc : List (Str × List Nat) × List Nat) cname =>
            if isSubstr cname t then
              (bucketAdd acc.1 (escape_special_chars cname) slabel,
               if slabel ∈ acc.2 then acc.2 else acc.2 ++ [slabel])
            else acc) (cl, cz)).1 slabel) := by
  intro aliases
  induction aliases with
  | nil =>
    intro cl cz
    exact ⟨fun m h => h, fun m h => h, fun h m hm => h m hm, fun h hm => h hm⟩
  | cons a rest ih =>
    intro cl cz
    simp only [List.foldl_cons]
    by_cases ha : isSubstr a t = true
    · rw [if_pos ha]
      obtain ⟨ih1, ih2, ih3, ih4⟩ := ih (bucketAdd cl (escape_special_chars a) slabel)
        (if slabel ∈ cz then cz else cz ++ [slabel])
      refine ⟨?_, ?_, ?_, ?_⟩
      · intro m hm
        exact ih1 m (bucketAdd_covered_mono cl _ slabel m hm)
      · intro m hm
        apply ih2
        by_cases hscz : slabel ∈ cz
        · rw [if_pos hscz]; exact hm
        · rw [if_neg hscz]; exact List.mem_append_left _ hm
      · intro hall
        apply ih3
        intro m hm
        by_cases hscz : slabel ∈ cz
        · rw [if_pos hscz] at hm
          exact bucketAdd_covered_mono cl _ slabel m (hall m hm)
        · rw [if_neg hscz] at hm
          rcases List.mem_append.mp hm with hm1 | hm2
          · exact bucketAdd_covered_mono cl _ slabel m (hall m hm1)
          · rw [List.mem_singleton.mp hm2]
            exact bucketAdd_covered_self cl _ slabel
      · intro _ hmem
        apply ih4 _ hmem
        intro _
        exact bucketAdd_covered_self cl _ slabel
    · rw [if_neg ha]
      exact ih cl cz

theorem mtc_covered_mono (cfg : GraphConfig) (cl : List (Str × List Nat))
    (cz : List Nat) (s : Str) (n m : Nat) (h : covered cl m) :
    covered (map_to_clusters cfg cl cz s n).1 m := by
  obtain ⟨h1, _, _, _⟩ := mtc_fold_inv (pyReplace (lit "\n") [] (pyLower s)) n
    (clusterAliases cfg) cl cz
  have hr := h1 m h
  simp only [map_to_clusters]
  split
  · exact hr
  · exact bucketAdd_covered_mono _ _ _ _ hr

theorem mtc_covered_all (cfg : GraphConfig) (cl : List (Str × List Nat))
    (cz : List Nat) (s : Str) (n : Nat) (hall : ∀ m ∈ cz, covered cl m) :
    ∀ m ∈ (map_to_clusters cfg cl cz s n).2,
      covered (map_to_clusters cfg cl cz s n).1 m := by
  obtain ⟨_, _, h3, _⟩ := mtc_fold_inv (pyReplace (lit "\n") [] (pyLower s)) n
    (clusterAliases cfg) cl cz
  intro m
  simp only [map_to_clusters]
  split
  · exact h3 hall m
  · intro hm
    exact bucketAdd_covered_mono _ _ _ _ (h3 hall m hm)

theorem mtc_covered_self (cfg : GraphConfig) (cl : List (Str × List Nat))
    (cz : List Nat) (s : Str) (n : Nat) (hself : n ∈ cz → covered cl n) :
    covered (map_to_clusters cfg cl cz s n).1 n := by
  obtain ⟨_, _, _, h4⟩ := mtc_fold_inv (pyReplace (lit "\n") [] (pyLower s)) n
    (clusterAliases cfg) cl cz
  simp only [map_to_clusters]
  split
  · next hmem => exact h4 hself hmem
  · exact bucketAdd_covered_self _ _ _

theorem mem_dictInsert {κ ν : Type} [DecidableEq κ] (m : List (κ × ν)) (k : κ)
    (v : ν) (p : κ × ν) (h : p ∈ dictInsert m k v) : p = (k, v) ∨ p ∈ m := by
  induction m with
  | nil =>
    simp only [dictInsert] at h
    exact Or.inl (List.mem_singleton.mp h)
  | cons e t ih =>
    by_cases he : e.1 = k
    · simp only [dictInsert, if_pos he] at h
      rcases List.mem_cons.mp h with rfl | ht
      · exact Or.inl rfl
      · exact Or.inr (List.mem_cons_of_mem _ ht)
    · simp only [dictInsert, if_neg he] at h
      rcases List.mem_cons.mp h with rfl | ht
      · exact Or.inr (List.mem_cons_self _ _)
      · rcases ih ht with h1 | h2
        · exact Or.inl h1
        · exact Or.inr (List.mem_cons_of_mem _ h2)

theorem body_step_covered (cfg : GraphConfig) (st st2 : BodyState) (e : Conn4)
    (hstep : body_step cfg st e = some st2) (h : bodyCovered st) :
    bodyCovered st2 := by
  cases hm : (if e.author ≠ [] then (alookup cfg.styling e.author).map (·.2)
      else some ([] : Str)) with
  | none =>
    simp only [body_step, hm] at hstep
    cases hstep
  | some ec =>
    simp only [body_step, hm] at hstep
    obtain rfl := (Option.some.inj hstep).symm
    have hall1 := mtc_covered_all cfg st.clusters st.clusterized
      (format_link_for_display e.src.1)
      (format_node cfg st.ns (format_link_for_display e.src.1)).1 h.2
    have hself1 := mtc_covered_self cfg st.clusters st.clusterized
      (format_link_for_display e.src.1)
      (format_node cfg st.ns (format_link_for_display e.src.1)).1
      (fun hn => h.2 _ hn)
    have hall2 := mtc_covered_all cfg _ _
      (format_link_for_display e.dst.1)
      (format_node cfg
        (format_node cfg st.ns (format_link_for_display e.src.1)).2.2
        (format_link_for_display e.dst.1)).1 hall1
    have hself2 := mtc_covered_self cfg _ _
      (format_link_for_display e.dst.1)
      (format_node cfg
        (format_node cfg st.ns (format_link_for_display e.src.1)).2.2
        (format_link_for_display e.dst.1)).1
      (fun hn => hall1 _ hn)
    constructor
    · intro p hp
      rcases mem_dictInsert _ _ _ p hp with rfl | hp2
      · exact hself2
      · rcases mem_dictInsert _ _ _ p hp2 with rfl | hp3
        · exact mtc_covered_mono cfg _ _ _ _ _ hself1
        · exact mtc_covered_mono cfg _ _ _ _ _
            (mtc_covered_mono cfg _ _ _ _ _ (h.1 p hp3))
    · intro m hm2
      exact hall2 m hm2

theorem foldlM_body_covered (cfg : GraphConfig) :
    ∀ (conns : List Conn4) (st st2 : BodyState),
      conns.foldlM (body_step cfg) st = some st2 →
      bodyCovered st → bodyCovered st2 := by
  intro conns
  induction conns with
  | nil =>
    intro st st2 h hc
    simp only [List.foldlM_nil] at h
    obtain rfl := Option.some.inj h
    exact hc
  | cons c r ih =>
    intro st st2 h hc
    rw [List.foldlM_cons] at h
    cases hcs : body_step cfg st c with
    | none =>
      rw [hcs] at h
      simp at h
    | some stm =>
      rw [hcs] at h
      simp only [Option.bind_eq_bind, Option.some_bind] at h
      exact ih stm st2 h (body_step_covered cfg st stm c hcs hc)

theorem dedupKeepFirst_nodup (xs : List Nat) : (dedupKeepFirst xs).Nodup := by
  suffices h : ∀ (ys acc : List Nat), acc.Nodup →
      (ys.foldl (fun acc v => if v ∈ acc then acc else acc ++ [v]) acc).Nodup by
    exact h xs [] List.nodup_nil
  intro ys
  induction ys with
  | nil => intro acc h; simpa using h
  | cons v r ih =>
    intro acc h
    simp only [List.foldl_cons]
    by_cases hv : v ∈ acc
    · rw [if_pos hv]
      exact ih acc h
    · rw [if_neg hv]
      refine ih _ (h.append (List.nodup_singleton v) ?_)
      intro a ha hb
      exact hv ((List.mem_singleton.mp hb) ▸ ha)

theorem pyListSet_nodup (xs : List Nat) : (pyListSet xs).Nodup :=
  ((List.perm_insertionSort _ _).nodup_iff).mpr (dedupKeepFirst_nodup xs)

theorem bucketEmit_fst_nodup (cn : Nat → Nat) (c : Str) (ns : List Nat) :
    ((bucketEmit cn c ns).map (·.1)).Nodup := by
  have hp : (bucketEmit cn c ns).Perm ((pyListSet ns).map (fun n => (n, c))) :=
    List.perm_insertionSort _ _
  have hp2 := hp.map (fun q : Nat × Str => q.1)
  have hmm : ((pyListSet ns).map (fun n => (n, c))).map (fun q : Nat × Str => q.1)
      = pyListSet ns := by
    rw [List.map_map]
    rw [show ((fun q : Nat × Str => q.1) ∘ fun n : Nat => (n, c)) = id from rfl]
    exact List.map_id _
  rw [hmm] at hp2
  exact hp2.nodup_iff.mpr (pyListSet_nodup ns)

/-- **C6 (counterexample).**  A node whose label contains two different
cluster aliases is registered into *two* named buckets, not exactly one:
with config `{"foo": s1, "bar": s2}` and an edge from a node labeled
`"foobar.com"`, that node (ID 1) appears in both the `foo` and the `bar`
bucket (the alias loop in `_make_graph_body` does not stop at the first
match). -/
theorem C6_counterexample :
    (make_graph_body ⟨[(lit "foo", lit "s1"), (lit "bar", lit "s2")], [], lit "youtube"⟩
        [⟨(lit "foobar.com", none), (lit "x.com", none), [], []⟩]).map
      (fun o => (o.clusters.filter (fun b => b.2.contains 1)).length)
      = some 2 ∧ (2 : Nat) ≠ 1 := by
  constructor
  · decide
  · decide

/-- **C6 (amended).**  Every node registered by `_make_graph_body`
appears in *at least one* cluster bucket (a node whose label matches
several aliases lands in every matched bucket; an unmatched node lands in
`nongrouped`), and each bucket's member list is deduplicated when emitted
by the layout pass (`list(set(...))` in `reorder_nodes_by_clusters`). -/
theorem C6_amended (cfg : GraphConfig) (connections : List Conn4) (out : BodyOut)
    (hout : make_graph_body cfg connections = some out) :
    (∀ p ∈ out.node_map, ∃ b ∈ out.clusters, p.1 ∈ b.2) ∧
    (∀ (cn : Nat → Nat) (b : Str × List Nat), b ∈ out.clusters →
      ((bucketEmit cn b.1 b.2).map (·.1)).Nodup) := by
  constructor
  · unfold make_graph_body at hout
    cases hfold : connections.foldlM (body_step cfg) ⟨⟨[], 1⟩, [], [], [], [], []⟩ with
    | none =>
      rw [hfold] at hout
      cases hout
    | some st =>
      rw [hfold] at hout
      obtain rfl := (Option.some.inj hout).symm
      have hcov := foldlM_body_covered cfg connections _ st hfold
        ⟨fun p hp => absurd hp (List.not_mem_nil p),
         fun m hm => absurd hm (List.not_mem_nil m)⟩
      intro p hp
      exact hcov.1 p hp
  · intro cn b _
    exact bucketEmit_fst_nodup cn b.1 b.2

theorem C6_amended_witness :
    (∀ p ∈ witnessOut.node_map, ∃ b ∈ witnessOut.clusters, p.1 ∈ b.2) ∧
    (∀ (cn : Nat → Nat) (b : Str × List Nat), b ∈ witnessOut.clusters →
      ((bucketEmit cn b.1 b.2).map (·.1)).Nodup) :=
  C6_amended witnessCfg witnessConns witnessOut (by decide)

theorem orderedInsert_filter_eq (cn : Nat → Nat) (k : Nat) (x : Nat × Str)
    (hx : ¬ cn x.1 = k) :
    ∀ s : List (Nat × Str),
      (List.orderedInsert (fun a b => cn b.1 ≤ cn a.1) x s).filter
          (fun a => decide (cn a.1 = k))
        = s.filter (fun a => decide (cn a.1 = k)) := by
  intro s
  induction s with
  | nil => simp [List.orderedInsert, hx]
  | cons y ys ih =>
    by_cases hr : cn y.1 ≤ cn x.1
    · simp only [List.orderedInsert, if_pos hr]
      rw [List.filter_cons, if_neg (by simp [hx])]
    · simp only [List.orderedInsert, if_neg hr]
      rw [List.filter_cons, List.filter_cons]
      by_cases hy : cn y.1 = k
      · rw [if_pos (by simp [hy]), ih, if_pos (by simp [hy])]
      · rw [if_neg (by simp [hy]), ih, if_neg (by simp [hy])]

theorem orderedInsert_filter_cons (cn : Nat → Nat) (k : Nat) (x : Nat × Str)
    (hx : cn x.1 = k) :
    ∀ s : List (Nat × Str),
      (List.orderedInsert (fun a b => cn b.1 ≤ cn a.1) x s).filter
          (fun a => decide (cn a.1 = k))
        = x :: s.filter (fun a => decide (cn a.1 = k)) := by
  intro s
  induction s with
  | nil => simp [List.orderedInsert, hx]
  | cons y ys ih =>
    by_cases hr : cn y.1 ≤ cn x.1
    · simp only [List.orderedInsert, if_pos hr]
      rw [List.filter_cons, if_pos (by simp [hx])]
    · have hy : ¬ cn y.1 = k := by omega
      simp only [List.orderedInsert, if_neg hr]
      rw [List.filter_cons, List.filter_cons, if_neg (by simp [hy]), ih,
        if_neg (by simp [hy])]

theorem insertionSort_filter (cn : Nat → Nat) (k : Nat) :
    ∀ l : List (Nat × Str),
      (l.insertionSort (fun a b => cn b.1 ≤ cn a.1)).filter
          (fun a => decide (cn a.1 = k))
        = l.filter (fun a => decide (cn a.1 = k)) := by
  intro l
  induction l with
  | nil => simp
  | cons x xs ih =>
    simp only [List.insertionSort]
    by_cases hx : cn x.1 = k
    · rw [orderedInsert_filter_cons cn k x hx, ih, List.filter_cons,
        if_pos (by simp [hx])]
    · rw [orderedInsert_filter_eq cn k x hx, ih, List.filter_cons,
        if_neg (by simp [hx])]

/-- **C7 (amended).**  Within each cluster the layout deduplicates via
Python's `set` — whose iteration order is the hash-table slot order, not
first-seen order — then applies a stable sort by inbound count
descending.  The emitted bucket is a permutation of the deduplicated
members, sorted by count descending, with ties ordered exactly as the
set iteration produced them (stability), and contains no duplicate
nodes.  (The original claim's "preserve first-seen order among equal
counts" fails, see the counterexample.) -/
theorem C7_amended (cn : Nat → Nat) (cname : Str) (nodes : List Nat)
    (nm : List (Nat × NodeInfo)) :
    (cname ≠ lit "nongrouped" →
      reorder_nodes_by_clusters nm [(cname, nodes)] cn
        = bucketEmit cn cname nodes) ∧
    (bucketEmit cn cname nodes).Perm ((pyListSet nodes).map (fun n => (n, cname))) ∧
    List.Pairwise (fun a b => cn b.1 ≤ cn a.1) (bucketEmit cn cname nodes) ∧
    (∀ k, (bucketEmit cn cname nodes).filter (fun a => decide (cn a.1 = k))
        = ((pyListSet nodes).map (fun n => (n, cname))).filter
            (fun a => decide (cn a.1 = k))) ∧
    ((bucketEmit cn cname nodes).map (·.1)).Nodup := by
  refine ⟨?_, ?_, ?_, ?_, ?_⟩
  · intro hne
    simp only [reorder_nodes_by_clusters, List.foldl_cons, List.foldl_nil]
    rw [if_neg hne]
    simp
  · exact List.perm_insertionSort _ _
  · haveI h1 : IsTotal (Nat × Str) (fun a b => cn b.1 ≤ cn a.1) :=
      ⟨fun a b => le_total (cn b.1) (cn a.1)⟩
    haveI h2 : IsTrans (Nat × Str) (fun a b => cn b.1 ≤ cn a.1) :=
      ⟨fun a b c hab hbc => le_trans hbc hab⟩
    exact List.sorted_insertionSort _ _
  · intro k
    exact insertionSort_filter cn k _
  · exact bucketEmit_fst_nodup cn cname nodes

theorem C7_amended_witness :
    reorder_nodes_by_clusters [] [(lit "clu", [2, 8])] (fun _ => 0)
      = bucketEmit (fun _ => 0) (lit "clu") [2, 8] :=
  (C7_amended (fun _ => 0) (lit "clu") [2, 8] []).1 (by decide)

end YTGraph
